import Mathlib

/-!
Verification of the DESVAB areal apportionment engine.

The engine redistributes measured quantities from one partition of the city
(source zones: postal codes `CP`, traffic quadrants `cuadrantes`) onto another
(target zones: neighbourhoods `barrios`).  The relevant source code is
`modulos/geo.py` (overlap-matrix builders `get_matriz_cp`,
`get_matriz_cuadrantes`), `modulos/movilidad.py` (`cargar_datos`, the
apportionment plus the three correction passes) and `modulos/energia.py`
(`_get_consumos_electricos`).

Geometry is embedded abstractly: a `Geo` record carries the zone id lists in
their iteration order together with the geometric primitives the code calls
(`intersects`, intersection areas, zone areas, and the distances used by the
nearest-zone searches).  All float arithmetic is modelled over `ℚ`; the places
where numpy float division can produce a non-finite value (division by a zero
area) are modelled with `Option ℚ` (`none` = non-finite / NaN) where a claim
depends on them, and are otherwise guarded by positivity hypotheses.
-/

namespace Desvab

/-- Pair of quantity columns carried through the mobility pipeline
(`cols = ['CO2_real_kg', 'FE']` in `cargar_datos`): the first component is the
`CO2_real_kg` column, the second the `FE` column. -/
abbrev Cols : Type := ℚ × ℚ

/-- Abstract geometric data for one run: the source-zone ids (`gdf_cuad.index`
or the CP index) and target-zone ids (`gdf_barrios.index`) in iteration order,
plus the geometric primitives used by the code.  `interArea s t` is
`S.geometry.intersection(T.geometry).area`, `srcArea`/`tgtArea` are the zone
areas, `inter s t` is `S.geometry.intersects(T.geometry)`, `distTT t u` is the
distance from target `t`'s centroid to target `u`'s geometry
(`gdf_barrios.distance(center_point)` in pass 2) and `distST s t` the distance
from source `s`'s centroid to target `t`'s geometry (pass 3). -/
structure Geo where
  srcs : List ℕ
  tgts : List String
  interArea : ℕ → String → ℚ
  srcArea : ℕ → ℚ
  tgtArea : String → ℚ
  inter : ℕ → String → Bool
  distTT : String → String → ℚ
  distST : ℕ → String → ℚ

/-- One entry of the overlap matrix as built by `get_matriz_cuadrantes`
(`geo.py`): if the polygons intersect, the intersection area divided by the
source zone's area, otherwise the initial `0`.  (`get_matriz_cp` builds the
same entries with `+=` starting from 0; `matrizCP` below keeps the float
division explicit for the zero-area analysis.) -/
def matrizOverlap (g : Geo) (s : ℕ) (t : String) : ℚ :=
  if g.inter s t then g.interArea s t / g.srcArea s else 0

/-- Row sum of the overlap matrix for source zone `s`
(`matriz_overlap.loc[cuad].sum()` in `cargar_datos`). -/
def rowSum (g : Geo) (s : ℕ) : ℚ :=
  (g.tgts.map (fun t => matrizOverlap g s t)).sum

/-- Numpy-style float division: a zero divisor yields a non-finite value
(`none`; in the reachable case the numerator is an intersection area bounded
by the zero source area, so the source produces `0.0/0.0 = NaN`). -/
def npDiv (a b : ℚ) : Option ℚ :=
  if b = 0 then none else some (a / b)

/-- One entry of the overlap matrix of `get_matriz_cp` (`geo.py`), with the
float division kept explicit: `intersection_area / areas_cp[cp]` is computed
only when the polygons intersect; non-intersecting pairs keep the initial 0. -/
def matrizCP (g : Geo) (s : ℕ) (t : String) : Option ℚ :=
  if g.inter s t then npDiv (g.interArea s t) (g.srcArea s) else some 0

/-- Apportionment step of `cargar_datos` (`movilidad.py` lines 110-114): for
each target zone, accumulate `quantity * weight` over the source zones whose
matrix entry is truthy (non-zero). -/
def paso0 (g : Geo) (q : ℕ → Cols) (t : String) : Cols :=
  (g.srcs.map (fun s =>
    if matrizOverlap g s t ≠ 0 then matrizOverlap g s t • q s else 0)).sum

/-- `gdf_cuad.intersects(fila.geometry).any()`: does any source zone intersect
target `t`? -/
def intersTgt (g : Geo) (t : String) : Bool :=
  g.srcs.any (fun s => g.inter s t)

/-- Covered area of a target zone: the sum, over the source zones intersecting
it, of the intersection area
(`gdf_cuad[gdf_cuad.intersects(...)].intersection(...).area.sum()`). -/
def coveredArea (g : Geo) (t : String) : ℚ :=
  ((g.srcs.filter (fun s => g.inter s t)).map (fun s => g.interArea s t)).sum

/-- Pass 1 of the coverage corrector (`movilidad.py` lines 117-124): a target
zone that intersects at least one source zone and whose covered area is
strictly below its own area has both accumulated columns multiplied by
`neighborhood_area / overlap_area`; every other target zone is unchanged. -/
def paso1 (g : Geo) (acc : String → Cols) : String → Cols := fun t =>
  if intersTgt g t = true ∧ coveredArea g t < g.tgtArea t then
    (g.tgtArea t / coveredArea g t) • acc t
  else acc t

/-- The pass-2 donor set `neighborhoods_with_data`
(`gdf_barrios[gdf_barrios['CO2_real_kg'] > 0]`), computed once from the
post-pass-1 state: the target zones whose CO2 column is positive. -/
def donors (g : Geo) (acc : String → Cols) : List String :=
  g.tgts.filter (fun t => decide (0 < (acc t).1))

/-- First index attaining the minimum of `f` over a list (`Series.idxmin`);
`none` on the empty list, where pandas raises `ValueError`. -/
def argminL {α : Type} (f : α → ℚ) : List α → Option α
  | [] => none
  | x :: xs =>
    match argminL f xs with
    | none => some x
    | some y => if f x ≤ f y then some x else some y

/-- Pointwise update of an accumulator at one target id
(`gdf_barrios.loc[t, cols] = v`). -/
def update (acc : String → Cols) (t : String) (v : Cols) : String → Cols :=
  fun u => if u = t then v else acc u

/-- `neighborhoods_with_data.distance(center_point).idxmin()`: the donor
nearest to target `t`, measured from `t`'s centroid, restricted to the donor
set. -/
def nearestDonor (g : Geo) (acc1 : String → Cols) (t : String) : Option String :=
  argminL (fun u => g.distTT t u) (donors g acc1)

/-- Body of the pass-2 loop (`movilidad.py` lines 128-133) for one target
zone: a zone other than the hard-excluded `'17.5'` that intersects no source
zone is assigned half the current value of the nearest donor; an empty donor
set makes `idxmin` raise (`none`). -/
def paso2F (g : Geo) (acc1 : String → Cols) (macc : Option (String → Cols))
    (t : String) : Option (String → Cols) :=
  macc.bind (fun acc =>
    if t ≠ "17.5" ∧ intersTgt g t = false then
      match nearestDonor g acc1 t with
      | none => none
      | some n => some (update acc t (((1 : ℚ)/2) • acc n))
    else some acc)

/-- Pass 2 of the coverage corrector: fold the pass-2 body over the target
zones, with the donor set snapshotted from the incoming (post-pass-1)
state. -/
def paso2 (g : Geo) (acc1 : String → Cols) : Option (String → Cols) :=
  g.tgts.foldl (paso2F g acc1) (some acc1)

/-- `gdf_barrios[gdf_barrios.intersects(fila.geometry)]`: the target zones
intersecting source `s`, in target iteration order. -/
def ovlTgts (g : Geo) (s : ℕ) : List String :=
  g.tgts.filter (fun t => g.inter s t)

/-- `overlapping_neighborhoods.intersection(fila.geometry).area.sum()`: total
intersection area of source `s` with the target zones it intersects. -/
def totalOvl (g : Geo) (s : ℕ) : ℚ :=
  ((ovlTgts g s).map (fun t => g.interArea s t)).sum

/-- `math.isclose(x, 1, abs_tol=1e-5)` with the default `rel_tol=1e-9`:
`|x-1| <= max(1e-9 * max(|x|, 1), 1e-5)`. -/
def iscloseOne (x : ℚ) : Bool :=
  decide (|x - 1| ≤ max ((1/10^9) * max |x| 1) (1/10^5))

/-- `gdf_barrios.distance(center_point).idxmin()` in pass 3: target zone
nearest to source `s`'s centroid, over all target zones. -/
def nearestTgtAll (g : Geo) (s : ℕ) : Option String :=
  argminL (fun t => g.distST s t) g.tgts

/-- Body of the pass-3 loop (`movilidad.py` lines 136-160) for one source
zone: skip when the CO2 column is zero or the row sum is `isclose` to 1;
otherwise assign the full quantity to the nearest target (no intersection),
`(1 - weight)`-scaled quantity to a single intersecting target, or an
area-proportional share of the leftover to each of several intersecting
targets. -/
def paso3F (g : Geo) (q : ℕ → Cols) (macc : Option (String → Cols))
    (s : ℕ) : Option (String → Cols) :=
  macc.bind (fun a =>
    if (q s).1 = 0 ∨ iscloseOne (rowSum g s) = true then some a
    else
      match ovlTgts g s with
      | [] =>
        match nearestTgtAll g s with
        | none => none
        | some n => some (update a n (a n + q s))
      | [t1] => some (update a t1 (a t1 + (1 - matrizOverlap g s t1) • q s))
      | _ =>
        some ((ovlTgts g s).foldl
          (fun a2 t =>
            update a2 t
              (a2 t + ((g.interArea s t / totalOvl g s) * (1 - rowSum g s)) • q s))
          a))

/-- Pass 3 of the coverage corrector: fold the pass-3 body over the source
zones. -/
def paso3 (g : Geo) (q : ℕ → Cols) (acc : String → Cols) :
    Option (String → Cols) :=
  g.srcs.foldl (paso3F g q) (some acc)

/-- The contribution of one source zone to one target zone in pass 3 (used to
express the fold as a pointwise sum). -/
def delta (g : Geo) (q : ℕ → Cols) (s : ℕ) (t : String) : Cols :=
  if (q s).1 = 0 ∨ iscloseOne (rowSum g s) = true then 0
  else
    match ovlTgts g s with
    | [] => if nearestTgtAll g s = some t then q s else 0
    | [t1] => if t = t1 then (1 - matrizOverlap g s t1) • q s else 0
    | _ =>
      if t ∈ ovlTgts g s then
        ((g.interArea s t / totalOvl g s) * (1 - rowSum g s)) • q s
      else 0

/-- The whole `cargar_datos` pipeline on a quantity table: apportion, then the
three correction passes.  (The final `groupby(index).sum()` is the identity on
a duplicate-free target index.) -/
def cargarDatos (g : Geo) (q : ℕ → Cols) : Option (String → Cols) :=
  (paso2 g (paso1 g (paso0 g q))).bind (fun acc2 => paso3 g q acc2)

/-- One accumulation step of `_get_consumos_electricos`:
`consumos_barrio.loc[barrio] += matriz_cp.loc[cp, barrio] * consumos_cp.loc[cp]`,
where the table lookup `consumos_cp.loc[cp]` raises `KeyError` (`none`) for a
source id absent from the table. -/
def consStep (g : Geo) (t : String) (tab : ℕ → Option ℚ)
    (macc : Option ℚ) (s : ℕ) : Option ℚ :=
  macc.bind (fun acc => (tab s).map (fun v => acc + matrizOverlap g s t * v))

/-- Energy-domain apportionment executor `_get_consumos_electricos`
(`energia.py` lines 225-240), one column at a time: for a target zone, iterate
over the source zones with positive weight (`cps = cps[cps > 0]`) and
accumulate `weight * table[source]`. -/
def consumosBarrio (g : Geo) (tab : ℕ → Option ℚ) (t : String) : Option ℚ :=
  (g.srcs.filter (fun s => decide (0 < matrizOverlap g s t))).foldl
    (consStep g t tab) (some 0)

/-! Concrete instances used by witnesses and counterexamples. -/

/-- One source zone of area 2 half-covering a single target zone: row sum 1/2
(residual present), quantity `(0, 1)` (zero CO2, positive FE). -/
def g0 : Geo where
  srcs := [0]
  tgts := ["a"]
  interArea := fun _ _ => 1
  srcArea := fun _ => 2
  tgtArea := fun _ => 1
  inter := fun s t => decide (s = 0) && decide (t = "a")
  distTT := fun _ _ => 0
  distST := fun _ _ => 0

/-- Quantity table with zero CO2 column and FE 1. -/
def q0 : ℕ → Cols := fun _ => (0, 1)

/-- One source zone exactly tiling target `"a"`; target `"b"` intersects
nothing. -/
def g1 : Geo where
  srcs := [0]
  tgts := ["a", "b"]
  interArea := fun _ t => if t = "a" then 1 else 0
  srcArea := fun _ => 1
  tgtArea := fun _ => 1
  inter := fun _ t => decide (t = "a")
  distTT := fun _ _ => 0
  distST := fun _ _ => 0

/-- Quantity table with CO2 2 and FE 3. -/
def q1 : ℕ → Cols := fun _ => (2, 3)

/-- All-zero quantity table. -/
def qz : ℕ → Cols := fun _ => (0, 0)

/-- One source zone of area 1 covering a third of target `"a"` (target area
3, covered area 1): pass-1 scaling by 3. -/
def g2 : Geo where
  srcs := [0]
  tgts := ["a"]
  interArea := fun _ _ => 1
  srcArea := fun _ => 1
  tgtArea := fun _ => 3
  inter := fun _ _ => true
  distTT := fun _ _ => 0
  distST := fun _ _ => 0

/-- A zero-area source polygon that intersects target `"a"`. -/
def g3 : Geo where
  srcs := [0]
  tgts := ["a"]
  interArea := fun _ _ => 0
  srcArea := fun _ => 0
  tgtArea := fun _ => 1
  inter := fun _ _ => true
  distTT := fun _ _ => 0
  distST := fun _ _ => 0

/-- One source zone of area 2 intersecting only target `"a"` with
intersection area 1: row sum 1/2, a single overlapping target. -/
def g4 : Geo where
  srcs := [0]
  tgts := ["a", "b"]
  interArea := fun _ t => if t = "a" then 1 else 0
  srcArea := fun _ => 2
  tgtArea := fun _ => 1
  inter := fun _ t => decide (t = "a")
  distTT := fun _ _ => 0
  distST := fun _ _ => 0

/-- One source zone of area 4 overlapping targets `"a"`, `"b"` with area 1
each: row sum 1/2 split over two targets, both targets fully covered. -/
def g5 : Geo where
  srcs := [0]
  tgts := ["a", "b"]
  interArea := fun _ _ => 1
  srcArea := fun _ => 4
  tgtArea := fun _ => 1
  inter := fun _ _ => true
  distTT := fun _ _ => 0
  distST := fun _ _ => 0

/-- Everywhere-defined quantity table for the energy executor. -/
def tabW : ℕ → Option ℚ := fun _ => some 1

/-- Quantity table defined only on source id 0. -/
def tabW2 : ℕ → Option ℚ := fun s => if s = 0 then some 1 else none

/-- Empty quantity table: every geometric source id is missing from it. -/
def tabN : ℕ → Option ℚ := fun _ => none

/-! Generic list-sum helper lemmas. -/

/-- A mapped sum of zeros is zero. -/
lemma sum_map_zero {α M : Type} [AddCommMonoid M] (f : α → M) :
    ∀ (l : List α), (∀ x ∈ l, f x = 0) → (l.map f).sum = 0 := by
  intro l
  induction l with
  | nil => intro _; simp
  | cons x xs ih =>
    intro h
    simp only [List.map_cons, List.sum_cons]
    rw [h x (by simp), ih (fun y hy => h y (by simp [hy])), zero_add]

/-- Mapped sums agree when the functions agree on the list. -/
lemma sum_map_congr {α M : Type} [AddCommMonoid M] {f g : α → M} :
    ∀ {l : List α}, (∀ x ∈ l, f x = g x) → (l.map f).sum = (l.map g).sum := by
  intro l
  induction l with
  | nil => intro _; simp
  | cons x xs ih =>
    intro h
    simp only [List.map_cons, List.sum_cons]
    rw [h x (by simp), ih (fun y hy => h y (by simp [hy]))]

/-- A mapped sum of pointwise sums splits. -/
lemma sum_map_add {α M : Type} [AddCommMonoid M] (f g : α → M) :
    ∀ (l : List α),
      (l.map (fun x => f x + g x)).sum = (l.map f).sum + (l.map g).sum := by
  intro l
  induction l with
  | nil => simp
  | cons x xs ih =>
    simp only [List.map_cons, List.sum_cons, ih]
    rw [add_add_add_comm]

/-- Double mapped sums commute. -/
lemma sum_map_swap {α β M : Type} [AddCommMonoid M] (F : α → β → M)
    (l2 : List β) :
    ∀ (l1 : List α),
      (l1.map (fun a => (l2.map (fun b => F a b)).sum)).sum
        = (l2.map (fun b => (l1.map (fun a => F a b)).sum)).sum := by
  intro l1
  induction l1 with
  | nil =>
    simp only [List.map_nil, List.sum_nil]
    rw [eq_comm]
    exact sum_map_zero _ l2 (fun b _ => rfl)
  | cons a l1 ih =>
    simp only [List.map_cons, List.sum_cons, ih]
    rw [← sum_map_add]

/-- Scalars factor out of a mapped sum of scalar multiples of a fixed
vector. -/
lemma sum_map_smul {α : Type} (c : α → ℚ) (v : Cols) :
    ∀ (l : List α), (l.map (fun x => c x • v)).sum = ((l.map c).sum) • v := by
  intro l
  induction l with
  | nil => simp
  | cons x xs ih =>
    simp only [List.map_cons, List.sum_cons, ih, add_smul]

/-- A fixed right factor comes out of a mapped sum. -/
lemma sum_map_mul_right {α : Type} (f : α → ℚ) (c : ℚ) :
    ∀ (l : List α), (l.map (fun x => f x * c)).sum = (l.map f).sum * c := by
  intro l
  induction l with
  | nil => simp
  | cons x xs ih =>
    simp only [List.map_cons, List.sum_cons, ih, add_mul]

/-- Summing over a filtered list is summing the guarded terms. -/
lemma sum_map_filter {α M : Type} [AddCommMonoid M] (p : α → Bool) (f : α → M) :
    ∀ (l : List α),
      ((l.filter p).map f).sum
        = (l.map (fun x => if p x then f x else 0)).sum := by
  intro l
  induction l with
  | nil => simp
  | cons x xs ih =>
    cases hp : p x with
    | true => simp [List.filter_cons, hp, ih]
    | false => simp [List.filter_cons, hp, ih]

/-- Summing an indicator of a single member of a duplicate-free list. -/
lemma sum_map_indicator {M : Type} [AddCommMonoid M] {x : String} (v : M) :
    ∀ (l : List String), l.Nodup → x ∈ l →
      (l.map (fun u => if x = u then v else 0)).sum = v := by
  intro l
  induction l with
  | nil => intro _ h; cases h
  | cons y ys ih =>
    intro hnd hx
    rw [List.nodup_cons] at hnd
    rcases List.mem_cons.mp hx with h | h
    · subst h
      have h0 : (List.map (fun u => if x = u then v else 0) ys).sum = 0 :=
        sum_map_zero _ ys (fun u hu => by
          rw [if_neg]; intro he; exact hnd.1 (he ▸ hu))
      simp [h0]
    · simp only [List.map_cons, List.sum_cons]
      rw [if_neg (by intro he; exact hnd.1 (he ▸ h)), zero_add, ih hnd.2 h]

/-- The first-minimum search only returns members of the list. -/
lemma argminL_mem {α : Type} (f : α → ℚ) :
    ∀ (l : List α) (y : α), argminL f l = some y → y ∈ l := by
  intro l
  induction l with
  | nil => intro y h; simp [argminL] at h
  | cons x xs ih =>
    intro y h
    unfold argminL at h
    cases hm : argminL f xs with
    | none =>
      rw [hm] at h
      have hx : some x = some y := h
      cases hx; exact List.mem_cons_self x xs
    | some z =>
      rw [hm] at h
      by_cases hle : f x ≤ f z
      · have hx : some x = some y := by
          rw [← h]; exact (if_pos hle).symm
        cases hx; exact List.mem_cons_self x xs
      · have hx : some z = some y := by
          rw [← h]; exact (if_neg hle).symm
        cases hx; exact List.mem_cons_of_mem x (ih _ hm)

/-- The first-minimum search succeeds on a non-empty list. -/
lemma argminL_isSome {α : Type} (f : α → ℚ) :
    ∀ (l : List α), l ≠ [] → ∃ y, argminL f l = some y ∧ y ∈ l := by
  intro l
  cases l with
  | nil => intro h; exact absurd rfl h
  | cons x xs =>
    intro _
    cases hm : argminL f xs with
    | none =>
      refine ⟨x, ?_, List.mem_cons_self x xs⟩
      unfold argminL
      rw [hm]
    | some z =>
      by_cases hle : f x ≤ f z
      · refine ⟨x, ?_, List.mem_cons_self x xs⟩
        unfold argminL
        rw [hm]
        exact if_pos hle
      · refine ⟨z, ?_, List.mem_cons_of_mem x (argminL_mem f xs z hm)⟩
        unfold argminL
        rw [hm]
        exact if_neg hle

/-! Facts about the overlap matrix shared by several claims. -/

/-- The row sum is the total overlap area divided by the source area. -/
lemma rowSum_eq_div (g : Geo) (s : ℕ) :
    rowSum g s = totalOvl g s / g.srcArea s := by
  unfold rowSum totalOvl ovlTgts
  rw [sum_map_filter]
  rw [sum_map_congr (f := fun t => matrizOverlap g s t)
    (g := fun t => if g.inter s t then g.interArea s t * (g.srcArea s)⁻¹ else 0)
    (fun t _ => by
      unfold matrizOverlap
      cases h : g.inter s t <;> simp [h, div_eq_mul_inv])]
  rw [sum_map_congr (f := fun t => if g.inter s t then g.interArea s t * (g.srcArea s)⁻¹ else 0)
    (g := fun t => (if g.inter s t then g.interArea s t else 0) * (g.srcArea s)⁻¹)
    (fun t _ => by cases h : g.inter s t <;> simp [h])]
  rw [sum_map_mul_right, ← sum_map_filter, div_eq_mul_inv]

/-- If a source zone intersects no listed target, its row sum is zero. -/
lemma rowSum_zero_of_no_ovl (g : Geo) (s : ℕ) (h : ovlTgts g s = []) :
    rowSum g s = 0 := by
  unfold rowSum
  apply sum_map_zero
  intro t ht
  unfold matrizOverlap
  cases hi : g.inter s t with
  | false => simp [hi]
  | true =>
    exfalso
    have : t ∈ ovlTgts g s := by
      unfold ovlTgts; exact List.mem_filter.mpr ⟨ht, hi⟩
    rw [h] at this; cases this

/-- With a single intersecting target, the row sum is that entry's weight. -/
lemma rowSum_of_single_ovl (g : Geo) (s : ℕ) (t1 : String)
    (hnd : g.tgts.Nodup) (h : ovlTgts g s = [t1]) :
    rowSum g s = matrizOverlap g s t1 := by
  unfold rowSum
  have hmem : t1 ∈ ovlTgts g s := by rw [h]; exact List.mem_cons_self t1 []
  have hint : g.inter s t1 = true := (List.mem_filter.mp hmem).2
  have ht1 : t1 ∈ g.tgts := (List.mem_filter.mp hmem).1
  rw [sum_map_congr (f := fun t => matrizOverlap g s t)
    (g := fun t => if t1 = t then matrizOverlap g s t1 else 0)
    (fun t ht => by
      show matrizOverlap g s t = if t1 = t then matrizOverlap g s t1 else 0
      by_cases he : t1 = t
      · rw [if_pos he, he]
      · rw [if_neg he]
        unfold matrizOverlap
        cases hi : g.inter s t with
        | false => simp
        | true =>
          exfalso
          have : t ∈ ovlTgts g s := List.mem_filter.mpr ⟨ht, hi⟩
          rw [h, List.mem_singleton] at this
          exact he this.symm)]
  exact sum_map_indicator _ g.tgts hnd ht1

/-! Lemmas about the energy executor's fold. -/

/-- Folding the energy accumulation step over a totally-defined table adds
the weighted sum of the quantities with positive weight; with non-negative
weights this equals the unfiltered weighted sum. -/
lemma consStep_fold (g : Geo) (t : String) (qe : ℕ → ℚ) :
    ∀ (l : List ℕ) (acc : ℚ), (∀ s ∈ l, 0 ≤ matrizOverlap g s t) →
      (l.filter (fun s => decide (0 < matrizOverlap g s t))).foldl
          (consStep g t (fun s => some (qe s))) (some acc)
        = some (acc + (l.map (fun s => matrizOverlap g s t * qe s)).sum) := by
  intro l
  induction l with
  | nil => intro acc _; simp
  | cons x xs ih =>
    intro acc h
    by_cases hx : 0 < matrizOverlap g x t
    · rw [List.filter_cons_of_pos (by simpa using hx)]
      rw [List.foldl_cons]
      have hstep : consStep g t (fun s => some (qe s)) (some acc) x
          = some (acc + matrizOverlap g x t * qe x) := rfl
      rw [hstep, ih _ (fun y hy => h y (by simp [hy]))]
      simp [add_assoc]
    · have hx0 : matrizOverlap g x t = 0 :=
        le_antisymm (not_lt.mp hx) (h x (by simp))
      rw [List.filter_cons_of_neg (by simpa using hx)]
      rw [ih _ (fun y hy => h y (by simp [hy]))]
      simp [hx0]

/-- The energy accumulation step absorbs an error state. -/
lemma consStep_none (g : Geo) (t : String) (tab : ℕ → Option ℚ) :
    ∀ (l : List ℕ), l.foldl (consStep g t tab) none = none := by
  intro l
  induction l with
  | nil => rfl
  | cons x xs ih => rw [List.foldl_cons]; exact ih

/-- The energy fold only consults the table at the listed source ids. -/
lemma consStep_congr (g : Geo) (t : String) (tab tab' : ℕ → Option ℚ) :
    ∀ (l : List ℕ), (∀ s ∈ l, tab s = tab' s) → ∀ (m : Option ℚ),
      l.foldl (consStep g t tab) m = l.foldl (consStep g t tab') m := by
  intro l
  induction l with
  | nil => intro _ m; rfl
  | cons x xs ih =>
    intro h m
    rw [List.foldl_cons, List.foldl_cons]
    have hstep : consStep g t tab m x = consStep g t tab' m x := by
      unfold consStep; rw [h x (by simp)]
    rw [hstep]
    exact ih (fun y hy => h y (by simp [hy])) _

/-- A missing table entry for a listed source id makes the energy fold
fail. -/
lemma consStep_absorb (g : Geo) (t : String) (tab : ℕ → Option ℚ) (s : ℕ) :
    ∀ (l : List ℕ), s ∈ l → tab s = none → ∀ (acc : ℚ),
      l.foldl (consStep g t tab) (some acc) = none := by
  intro l
  induction l with
  | nil => intro h; cases h
  | cons x xs ih =>
    intro hs hnone acc
    rw [List.foldl_cons]
    rcases List.mem_cons.mp hs with h | h
    · subst h
      have hstep : consStep g t tab (some acc) s = none := by
        unfold consStep; rw [hnone]; rfl
      rw [hstep]
      exact consStep_none g t tab xs
    · cases hstep : consStep g t tab (some acc) x with
      | none => exact consStep_none g t tab xs
      | some a => exact ih h hnone a

/-! Lemmas about pass 2. -/

/-- Unfolding of the pass-2 body on a live accumulator. -/
lemma paso2F_some (g : Geo) (acc1 acc : String → Cols) (t : String) :
    paso2F g acc1 (some acc) t
      = if t ≠ "17.5" ∧ intersTgt g t = false then
          match nearestDonor g acc1 t with
          | none => none
          | some n => some (update acc t (((1 : ℚ)/2) • acc n))
        else some acc := rfl

/-- The pass-2 fold absorbs an error state. -/
lemma paso2F_foldl_none (g : Geo) (acc1 : String → Cols) :
    ∀ (l : List String), l.foldl (paso2F g acc1) none = none := by
  intro l
  induction l with
  | nil => rfl
  | cons x xs ih => rw [List.foldl_cons]; exact ih

/-- A target zone that intersects no source zone accumulates nothing in the
apportionment step (all its matrix entries are the initial zeros). -/
lemma paso0_zero_of_no_inter (g : Geo) (q : ℕ → Cols) (t : String)
    (h : intersTgt g t = false) : paso0 g q t = 0 := by
  unfold paso0
  apply sum_map_zero
  intro s hs
  have hi : g.inter s t = false := by
    cases hb : g.inter s t with
    | false => rfl
    | true =>
      exfalso
      have hany : g.srcs.any (fun u => g.inter u t) = true :=
        List.any_eq_true.mpr ⟨s, hs, hb⟩
      unfold intersTgt at h
      rw [hany] at h
      exact Bool.noConfusion h
  have hm : matrizOverlap g s t = 0 := by
    unfold matrizOverlap; rw [hi]; simp
  rw [hm]
  simp

/-- A target zone that intersects no source zone is still zero after
pass 1. -/
lemma paso1_zero_of_no_inter (g : Geo) (q : ℕ → Cols) (t : String)
    (h : intersTgt g t = false) : paso1 g (paso0 g q) t = 0 := by
  have hng : ¬(intersTgt g t = true ∧ coveredArea g t < g.tgtArea t) := by
    intro hc
    rw [h] at hc
    exact Bool.noConfusion hc.1
  unfold paso1
  rw [if_neg hng]
  exact paso0_zero_of_no_inter g q t h

/-- Every pass-2 donor (positive CO2 after pass 1) intersects some source
zone, so pass 2 never overwrites a donor. -/
lemma donors_intersect (g : Geo) (q : ℕ → Cols) :
    ∀ d ∈ donors g (paso1 g (paso0 g q)), intersTgt g d = true := by
  intro d hd
  rcases List.mem_filter.mp hd with ⟨_, hdec⟩
  rw [decide_eq_true_eq] at hdec
  cases hb : intersTgt g d with
  | true => rfl
  | false =>
    exfalso
    rw [paso1_zero_of_no_inter g q d hb] at hdec
    norm_num at hdec

/-- Invariant induction over the pass-2 fold: when the donor set is
non-empty and every donor intersects some source zone (so is never assigned
by pass 2), the fold succeeds, donors and unprocessed zones keep their
values, and each processed zero-coverage zone (other than `'17.5'`) ends up
with half the snapshot value of its nearest donor. -/
lemma paso2_go (g : Geo) (acc1 : String → Cols)
    (hd : donors g acc1 ≠ [])
    (hdi : ∀ d ∈ donors g acc1, intersTgt g d = true) :
    ∀ (l : List String), l.Nodup → ∀ (acc : String → Cols),
      (∀ d ∈ donors g acc1, acc d = acc1 d) →
      ∃ acc2, l.foldl (paso2F g acc1) (some acc) = some acc2 ∧
        (∀ d ∈ donors g acc1, acc2 d = acc1 d) ∧
        (∀ u, u ∉ l → acc2 u = acc u) ∧
        (∀ u ∈ l, (u ≠ "17.5" ∧ intersTgt g u = false) →
          ∃ n, nearestDonor g acc1 u = some n ∧ n ∈ donors g acc1 ∧
            acc2 u = ((1 : ℚ)/2) • acc1 n) ∧
        (∀ u ∈ l, ¬(u ≠ "17.5" ∧ intersTgt g u = false) → acc2 u = acc u) := by
  intro l
  induction l with
  | nil =>
    intro _ acc hpres
    exact ⟨acc, rfl, hpres, fun u _ => rfl,
      fun u hu => absurd hu (List.not_mem_nil u),
      fun u hu _ => absurd hu (List.not_mem_nil u)⟩
  | cons x xs ih =>
    intro hnd acc hpres
    rw [List.nodup_cons] at hnd
    by_cases hg : x ≠ "17.5" ∧ intersTgt g x = false
    · obtain ⟨n, hn, hnmem⟩ :=
        argminL_isSome (fun u => g.distTT x u) (donors g acc1) hd
      have hn2 : nearestDonor g acc1 x = some n := hn
      have hstep : paso2F g acc1 (some acc) x
          = some (update acc x (((1 : ℚ)/2) • acc1 n)) := by
        rw [paso2F_some, if_pos hg, hn2]
        show some (update acc x (((1 : ℚ)/2) • acc n))
          = some (update acc x (((1 : ℚ)/2) • acc1 n))
        rw [hpres n hnmem]
      obtain ⟨acc2, hfold, hdon2, hout, hgate, hngate⟩ :=
        ih hnd.2 (update acc x (((1 : ℚ)/2) • acc1 n)) (fun d hdmem => by
          unfold update
          rw [if_neg ?_]
          · exact hpres d hdmem
          · intro he
            have hit := hdi d hdmem
            rw [he, hg.2] at hit
            exact Bool.noConfusion hit)
      refine ⟨acc2, ?_, hdon2, ?_, ?_, ?_⟩
      · rw [List.foldl_cons, hstep]; exact hfold
      · intro u hu
        have hux : u ≠ x := fun he => hu (he ▸ List.mem_cons_self x xs)
        have huxs : u ∉ xs := fun hm => hu (List.mem_cons_of_mem x hm)
        rw [hout u huxs]
        unfold update
        rw [if_neg hux]
      · intro u hu hgu
        rcases List.mem_cons.mp hu with he | hm
        · rw [he]
          refine ⟨n, hn2, hnmem, ?_⟩
          rw [hout x hnd.1]
          unfold update
          rw [if_pos rfl]
        · exact hgate u hm hgu
      · intro u hu hgu
        rcases List.mem_cons.mp hu with he | hm
        · rw [he] at hgu; exact absurd hg hgu
        · rw [hngate u hm hgu]
          unfold update
          rw [if_neg ?_]
          intro he
          rw [he] at hm
          exact hnd.1 hm
    · have hstep : paso2F g acc1 (some acc) x = some acc := by
        rw [paso2F_some, if_neg hg]
      obtain ⟨acc2, hfold, hdon2, hout, hgate, hngate⟩ := ih hnd.2 acc hpres
      refine ⟨acc2, ?_, hdon2, ?_, ?_, ?_⟩
      · rw [List.foldl_cons, hstep]; exact hfold
      · intro u hu
        exact hout u (fun hm => hu (List.mem_cons_of_mem x hm))
      · intro u hu hgu
        rcases List.mem_cons.mp hu with he | hm
        · rw [he] at hgu; exact absurd hgu hg
        · exact hgate u hm hgu
      · intro u hu hgu
        rcases List.mem_cons.mp hu with he | hm
        · rw [he]; exact hout x hnd.1
        · exact hngate u hm hgu

/-- With an empty donor set, the first zero-coverage target zone reached by
pass 2 makes the `idxmin` search fail. -/
lemma paso2_fail (g : Geo) (acc1 : String → Cols)
    (hdon : donors g acc1 = []) :
    ∀ (l : List String), (∃ t ∈ l, t ≠ "17.5" ∧ intersTgt g t = false) →
      ∀ (acc : String → Cols), l.foldl (paso2F g acc1) (some acc) = none := by
  intro l
  induction l with
  | nil =>
    intro h acc
    obtain ⟨t, ht, _⟩ := h
    cases ht
  | cons x xs ih =>
    intro h acc
    obtain ⟨t, htl, hgt⟩ := h
    by_cases hg : x ≠ "17.5" ∧ intersTgt g x = false
    · have hnone : nearestDonor g acc1 x = none := by
        unfold nearestDonor
        rw [hdon]
        rfl
      have hstep : paso2F g acc1 (some acc) x = none := by
        rw [paso2F_some, if_pos hg, hnone]
      rw [List.foldl_cons, hstep]
      exact paso2F_foldl_none g acc1 xs
    · have hstep : paso2F g acc1 (some acc) x = some acc := by
        rw [paso2F_some, if_neg hg]
      rw [List.foldl_cons, hstep]
      apply ih
      rcases List.mem_cons.mp htl with he | hm
      · rw [he] at hgt; exact absurd hgt hg
      · exact ⟨t, hm, hgt⟩

/-! Lemmas about pass 3. -/

/-- Unfolding of the pass-3 body on a live accumulator. -/
lemma paso3F_some (g : Geo) (q : ℕ → Cols) (a : String → Cols) (s : ℕ) :
    paso3F g q (some a) s
      = if (q s).1 = 0 ∨ iscloseOne (rowSum g s) = true then some a
        else
          match ovlTgts g s with
          | [] =>
            match nearestTgtAll g s with
            | none => none
            | some n => some (update a n (a n + q s))
          | [t1] => some (update a t1 (a t1 + (1 - matrizOverlap g s t1) • q s))
          | _ =>
            some ((ovlTgts g s).foldl
              (fun a2 t =>
                update a2 t
                  (a2 t + ((g.interArea s t / totalOvl g s) * (1 - rowSum g s)) • q s))
              a) := rfl

/-- With the gate satisfied (zero CO2 or row sum close to 1), a source zone
contributes nothing in pass 3, for either column. -/
lemma delta_eq_of_gate (g : Geo) (q : ℕ → Cols) (s : ℕ)
    (h : (q s).1 = 0 ∨ iscloseOne (rowSum g s) = true) :
    ∀ t, delta g q s t = 0 := by
  intro t
  unfold delta
  rw [if_pos h]

/-- Pass-3 contribution of a source zone with no intersecting target. -/
lemma delta_eq_empty (g : Geo) (q : ℕ → Cols) (s : ℕ)
    (hg : ¬((q s).1 = 0 ∨ iscloseOne (rowSum g s) = true))
    (hovl : ovlTgts g s = []) :
    ∀ u, delta g q s u = if nearestTgtAll g s = some u then q s else 0 := by
  intro u
  unfold delta
  rw [if_neg hg, hovl]

/-- Pass-3 contribution of a source zone with a single intersecting
target. -/
lemma delta_eq_single (g : Geo) (q : ℕ → Cols) (s : ℕ) (t1 : String)
    (hg : ¬((q s).1 = 0 ∨ iscloseOne (rowSum g s) = true))
    (hovl : ovlTgts g s = [t1]) :
    ∀ u, delta g q s u
      = if u = t1 then (1 - matrizOverlap g s t1) • q s else 0 := by
  intro u
  unfold delta
  rw [if_neg hg, hovl]

/-- Pass-3 contribution of a source zone with several intersecting
targets. -/
lemma delta_eq_multi (g : Geo) (q : ℕ → Cols) (s : ℕ) (t1 t2 : String)
    (rest : List String)
    (hg : ¬((q s).1 = 0 ∨ iscloseOne (rowSum g s) = true))
    (hovl : ovlTgts g s = t1 :: t2 :: rest) :
    ∀ u, delta g q s u
      = if u ∈ ovlTgts g s then
          ((g.interArea s u / totalOvl g s) * (1 - rowSum g s)) • q s
        else 0 := by
  intro u
  unfold delta
  rw [if_neg hg, hovl]

/-- Folding distinct-key additive updates is a pointwise guarded
addition. -/
lemma foldl_update_add (f : String → Cols) :
    ∀ (l : List String), l.Nodup → ∀ (a : String → Cols),
      l.foldl (fun a2 t => update a2 t (a2 t + f t)) a
        = fun u => if u ∈ l then a u + f u else a u := by
  intro l
  induction l with
  | nil =>
    intro _ a
    funext u
    rw [if_neg (List.not_mem_nil u)]
    rfl
  | cons x xs ih =>
    intro hnd a
    rw [List.nodup_cons] at hnd
    rw [List.foldl_cons, ih hnd.2]
    funext u
    by_cases hux : u = x
    · subst hux
      rw [if_neg hnd.1, if_pos (List.mem_cons_self u xs)]
      unfold update
      rw [if_pos rfl]
    · have hm : u ∈ x :: xs ↔ u ∈ xs := by
        constructor
        · intro h
          rcases List.mem_cons.mp h with he | hm
          · exact absurd he hux
          · exact hm
        · exact List.mem_cons_of_mem x
      by_cases hu : u ∈ xs
      · rw [if_pos hu, if_pos (hm.mpr hu)]
        unfold update
        rw [if_neg hux]
      · rw [if_neg hu, if_neg (fun h => hu (hm.mp h))]
        unfold update
        rw [if_neg hux]

/-- One pass-3 step adds exactly the source's `delta` contribution. -/
lemma paso3_step (g : Geo) (q : ℕ → Cols)
    (hnd : g.tgts.Nodup) (hne : g.tgts ≠ []) (a : String → Cols) (s : ℕ) :
    paso3F g q (some a) s = some (fun u => a u + delta g q s u) := by
  rw [paso3F_some]
  by_cases hgate : (q s).1 = 0 ∨ iscloseOne (rowSum g s) = true
  · rw [if_pos hgate]
    refine congrArg some ?_
    funext u
    rw [delta_eq_of_gate g q s hgate u, add_zero]
  · rw [if_neg hgate]
    cases hovl : ovlTgts g s with
    | nil =>
      obtain ⟨n, hn, hnmem⟩ := argminL_isSome (fun t => g.distST s t) g.tgts hne
      have hn2 : nearestTgtAll g s = some n := hn
      rw [hn2]
      show some (update a n (a n + q s)) = some fun u => a u + delta g q s u
      refine congrArg some ?_
      funext u
      rw [delta_eq_empty g q s hgate hovl u]
      unfold update
      by_cases hu : u = n
      · subst hu
        rw [if_pos rfl, hn2, if_pos rfl]
      · rw [if_neg hu, hn2,
          if_neg (fun hc => hu (Option.some.inj hc).symm), add_zero]
    | cons t1 rest =>
      cases rest with
      | nil =>
        show some (update a t1 (a t1 + (1 - matrizOverlap g s t1) • q s))
          = some fun u => a u + delta g q s u
        refine congrArg some ?_
        funext u
        rw [delta_eq_single g q s t1 hgate hovl u]
        unfold update
        by_cases hu : u = t1
        · subst hu
          rw [if_pos rfl, if_pos rfl]
        · rw [if_neg hu, if_neg hu, add_zero]
      | cons t2 rest2 =>
        have hnodovl : (ovlTgts g s).Nodup := List.Nodup.filter _ hnd
        show some ((t1 :: t2 :: rest2).foldl
            (fun a2 t => update a2 t
              (a2 t + ((g.interArea s t / totalOvl g s) * (1 - rowSum g s)) • q s)) a)
          = some fun u => a u + delta g q s u
        rw [foldl_update_add
          (fun t => ((g.interArea s t / totalOvl g s) * (1 - rowSum g s)) • q s)
          (t1 :: t2 :: rest2) (hovl ▸ hnodovl) a]
        refine congrArg some ?_
        funext u
        rw [delta_eq_multi g q s t1 t2 rest2 hgate hovl u, hovl]
        by_cases hu : u ∈ t1 :: t2 :: rest2
        · rw [if_pos hu, if_pos hu]
        · rw [if_neg hu, if_neg hu, add_zero]

/-- Pass 3 is the pointwise sum of the per-source contributions. -/
lemma paso3_sum (g : Geo) (q : ℕ → Cols)
    (hnd : g.tgts.Nodup) (hne : g.tgts ≠ []) :
    ∀ (l : List ℕ) (acc : String → Cols),
      l.foldl (paso3F g q) (some acc)
        = some (fun u => acc u + (l.map (fun s => delta g q s u)).sum) := by
  intro l
  induction l with
  | nil =>
    intro acc
    refine congrArg some ?_
    funext u
    simp
  | cons s xs ih =>
    intro acc
    rw [List.foldl_cons, paso3_step g q hnd hne acc s, ih]
    refine congrArg some ?_
    funext u
    show acc u + delta g q s u + ((xs.map (fun s2 => delta g q s2 u)).sum)
      = acc u + ((List.map (fun s2 => delta g q s2 u) (s :: xs)).sum)
    rw [List.map_cons, List.sum_cons, add_assoc]

/-- Pass 3 on the source list: the fold as a pointwise sum. -/
lemma paso3_eq (g : Geo) (q : ℕ → Cols)
    (hnd : g.tgts.Nodup) (hne : g.tgts ≠ []) (acc : String → Cols) :
    paso3 g q acc
      = some (fun u => acc u + (g.srcs.map (fun s => delta g q s u)).sum) := by
  unfold paso3
  exact paso3_sum g q hnd hne g.srcs acc

/-- `math.isclose(1, 1, abs_tol=1e-5)` holds. -/
lemma iscloseOne_one : iscloseOne 1 = true := by
  apply decide_eq_true
  rw [sub_self, abs_zero]
  exact le_max_of_le_right (by norm_num)

/-- `math.isclose(1/2, 1, abs_tol=1e-5)` fails. -/
lemma iscloseOne_half : iscloseOne ((1 : ℚ)/2) = false := by
  apply decide_eq_false
  intro hc
  have h1 : |(1 : ℚ)/2 - 1| = 1/2 := by
    rw [show ((1 : ℚ)/2 - 1) = -(1/2) by norm_num, abs_neg,
      abs_of_nonneg (by norm_num : (0 : ℚ) ≤ 1/2)]
  have h2 : max |(1 : ℚ)/2| 1 = 1 :=
    max_eq_right (by rw [abs_of_nonneg (by norm_num : (0 : ℚ) ≤ 1/2)]; norm_num)
  rw [h1, h2] at hc
  have h3 : max ((1 : ℚ)/10^9 * 1) (1/10^5) = 1/10^5 :=
    max_eq_right (by norm_num)
  rw [h3] at hc
  norm_num at hc

/-- Total pass-3 contribution of a multi-target source zone over its
intersecting targets: the full leftover. -/
lemma delta_multi_total (g : Geo) (q : ℕ → Cols) (s : ℕ)
    (hg : ¬((q s).1 = 0 ∨ iscloseOne (rowSum g s) = true))
    (t1 t2 : String) (rest : List String)
    (hovl : ovlTgts g s = t1 :: t2 :: rest)
    (hne0 : totalOvl g s ≠ 0) :
    ((ovlTgts g s).map (fun u => delta g q s u)).sum
      = (1 - rowSum g s) • q s := by
  rw [sum_map_congr (f := fun u => delta g q s u)
    (g := fun u => ((g.interArea s u / totalOvl g s) * (1 - rowSum g s)) • q s)
    (fun u hu => by
      show delta g q s u
        = ((g.interArea s u / totalOvl g s) * (1 - rowSum g s)) • q s
      rw [delta_eq_multi g q s t1 t2 rest hg hovl u, if_pos hu])]
  rw [sum_map_smul (fun u => (g.interArea s u / totalOvl g s) * (1 - rowSum g s))
    (q s) (ovlTgts g s)]
  rw [sum_map_congr
    (f := fun u => (g.interArea s u / totalOvl g s) * (1 - rowSum g s))
    (g := fun u => g.interArea s u * ((totalOvl g s)⁻¹ * (1 - rowSum g s)))
    (fun u _ => by
      show (g.interArea s u / totalOvl g s) * (1 - rowSum g s)
        = g.interArea s u * ((totalOvl g s)⁻¹ * (1 - rowSum g s))
      rw [div_eq_mul_inv, mul_assoc])]
  rw [sum_map_mul_right (fun u => g.interArea s u)
    ((totalOvl g s)⁻¹ * (1 - rowSum g s)) (ovlTgts g s)]
  have ht : ((ovlTgts g s).map (fun u => g.interArea s u)).sum = totalOvl g s := rfl
  rw [ht, ← mul_assoc, mul_inv_cancel₀ hne0, one_mul]

/-- Pass 1 leaves a target zone unchanged when it is not under-covered. -/
lemma paso1_noop_at (g : Geo) (acc : String → Cols) (t : String)
    (h : intersTgt g t = true → g.tgtArea t ≤ coveredArea g t) :
    paso1 g acc t = acc t := by
  unfold paso1
  rw [if_neg]
  intro hc
  exact absurd hc.2 (not_lt.mpr (h hc.1))

/-- Pass 2 is the identity when no listed target zone triggers the
fallback. -/
lemma paso2_noop (g : Geo) (acc1 : String → Cols)
    (h : ∀ t ∈ g.tgts, ¬(t ≠ "17.5" ∧ intersTgt g t = false)) :
    paso2 g acc1 = some acc1 := by
  unfold paso2
  have aux : ∀ (l : List String),
      (∀ t ∈ l, ¬(t ≠ "17.5" ∧ intersTgt g t = false)) →
      ∀ (acc : String → Cols), l.foldl (paso2F g acc1) (some acc) = some acc := by
    intro l
    induction l with
    | nil => intro _ acc; rfl
    | cons x xs ih =>
      intro hl acc
      rw [List.foldl_cons, paso2F_some, if_neg (hl x (by simp))]
      exact ih (fun t ht => hl t (by simp [ht])) acc
  exact aux g.tgts h acc1

/-- Total of the apportionment step over the target zones: each source
contributes its row sum times its quantity. -/
lemma paso0_total (g : Geo) (q : ℕ → Cols) :
    (g.tgts.map (fun t => paso0 g q t)).sum
      = (g.srcs.map (fun s => rowSum g s • q s)).sum := by
  unfold paso0
  rw [sum_map_congr
    (f := fun t => (g.srcs.map (fun s =>
      if matrizOverlap g s t ≠ 0 then matrizOverlap g s t • q s else 0)).sum)
    (g := fun t => (g.srcs.map (fun s => matrizOverlap g s t • q s)).sum)
    (fun t _ => by
      apply sum_map_congr
      intro s _
      show (if matrizOverlap g s t ≠ 0 then matrizOverlap g s t • q s else 0)
        = matrizOverlap g s t • q s
      by_cases h : matrizOverlap g s t = 0
      · rw [if_neg (by simpa using h), h, zero_smul]
      · rw [if_pos h])]
  rw [sum_map_swap (fun t s => matrizOverlap g s t • q s) g.srcs g.tgts]
  apply sum_map_congr
  intro s _
  show (g.tgts.map (fun t => matrizOverlap g s t • q s)).sum = rowSum g s • q s
  rw [sum_map_smul (fun t => matrizOverlap g s t) (q s) g.tgts]
  rfl

/-- Per-source conservation in pass 3: under the gate conditions, the total
of a source's contributions over the target zones plus its directly
apportioned share is its full quantity. -/
lemma delta_total (g : Geo) (q : ℕ → Cols) (s : ℕ)
    (hnd : g.tgts.Nodup) (hne : g.tgts ≠ [])
    (hcase : rowSum g s = 1 ∨
      ((q s).1 ≠ 0 ∧ iscloseOne (rowSum g s) = false ∧
       (∀ t1 t2 rest, ovlTgts g s = t1 :: t2 :: rest → totalOvl g s ≠ 0))) :
    (g.tgts.map (fun u => delta g q s u)).sum + rowSum g s • q s = q s := by
  rcases hcase with h1 | ⟨hq, hcl, hmulti⟩
  · have hg : (q s).1 = 0 ∨ iscloseOne (rowSum g s) = true :=
      Or.inr (by rw [h1]; exact iscloseOne_one)
    rw [sum_map_zero _ g.tgts (fun u _ => delta_eq_of_gate g q s hg u), h1,
      one_smul, zero_add]
  · have hgate : ¬((q s).1 = 0 ∨ iscloseOne (rowSum g s) = true) := by
      intro hc
      rcases hc with hc | hc
      · exact hq hc
      · rw [hcl] at hc; exact Bool.noConfusion hc
    cases hovl : ovlTgts g s with
    | nil =>
      have hrz : rowSum g s = 0 := rowSum_zero_of_no_ovl g s hovl
      obtain ⟨n, hn, hnmem⟩ := argminL_isSome (fun t => g.distST s t) g.tgts hne
      have hn2 : nearestTgtAll g s = some n := hn
      rw [sum_map_congr (f := fun u => delta g q s u)
        (g := fun u => if n = u then q s else 0)
        (fun u _ => by
          show delta g q s u = if n = u then q s else 0
          rw [delta_eq_empty g q s hgate hovl u, hn2]
          exact if_congr Option.some_inj rfl rfl)]
      rw [sum_map_indicator (q s) g.tgts hnd hnmem, hrz, zero_smul, add_zero]
    | cons t1 rest =>
      cases rest with
      | nil =>
        have hmem : t1 ∈ g.tgts := by
          have h : t1 ∈ ovlTgts g s := by
            rw [hovl]; exact List.mem_cons_self t1 []
          exact (List.mem_filter.mp h).1
        rw [sum_map_congr (f := fun u => delta g q s u)
          (g := fun u => if t1 = u then (1 - matrizOverlap g s t1) • q s else 0)
          (fun u _ => by
            show delta g q s u
              = if t1 = u then (1 - matrizOverlap g s t1) • q s else 0
            rw [delta_eq_single g q s t1 hgate hovl u]
            exact if_congr eq_comm rfl rfl)]
        rw [sum_map_indicator _ g.tgts hnd hmem,
          rowSum_of_single_ovl g s t1 hnd hovl, ← add_smul, sub_add_cancel,
          one_smul]
      | cons t2 rest2 =>
        have hne0 : totalOvl g s ≠ 0 := hmulti t1 t2 rest2 hovl
        have hsum : (g.tgts.map (fun u => delta g q s u)).sum
            = ((ovlTgts g s).map (fun u => delta g q s u)).sum := by
          rw [show ovlTgts g s = g.tgts.filter (fun t => g.inter s t) from rfl,
            sum_map_filter (fun t => g.inter s t) (fun u => delta g q s u) g.tgts]
          apply sum_map_congr
          intro u _
          show delta g q s u = if g.inter s u then delta g q s u else 0
          by_cases hi : g.inter s u = true
          · rw [if_pos hi]
          · rw [if_neg hi, delta_eq_multi g q s t1 t2 rest2 hgate hovl u,
              if_neg (show ¬(u ∈ ovlTgts g s) from
                fun hc => hi (List.mem_filter.mp hc).2)]
        rw [hsum, delta_multi_total g q s hgate t1 t2 rest2 hovl hne0,
          ← add_smul, sub_add_cancel, one_smul]

/-! Claim theorems. -/

/-- C1.  The apportionment executors compute, for each target zone, the
weighted sum over source zones of `weight(source, target) * quantity[source]`
(both quantity columns in `cargar_datos`, one column in
`_get_consumos_electricos`), and a source zone with zero weight for a target
contributes exactly zero to it: the truthiness-gated accumulation of
`cargar_datos` and the positivity-filtered accumulation of
`_get_consumos_electricos` both equal the full weighted sum. -/
theorem c1_weighted_sum (g : Geo) (q : ℕ → Cols) (qe : ℕ → ℚ) (t : String)
    (hA : ∀ s, 0 ≤ g.interArea s t) (hS : ∀ s, 0 ≤ g.srcArea s) :
    paso0 g q t = (g.srcs.map (fun s => matrizOverlap g s t • q s)).sum ∧
    (∀ s, matrizOverlap g s t = 0 → matrizOverlap g s t • q s = 0) ∧
    consumosBarrio g (fun s => some (qe s)) t
      = some ((g.srcs.map (fun s => matrizOverlap g s t * qe s)).sum) := by
  have hw : ∀ s, 0 ≤ matrizOverlap g s t := by
    intro s
    unfold matrizOverlap
    cases h : g.inter s t with
    | false => simp
    | true => simpa using div_nonneg (hA s) (hS s)
  refine ⟨?_, ?_, ?_⟩
  · unfold paso0
    exact sum_map_congr (fun s _ => by
      show (if matrizOverlap g s t ≠ 0 then matrizOverlap g s t • q s else 0)
        = matrizOverlap g s t • q s
      by_cases h : matrizOverlap g s t = 0
      · rw [if_neg (by simpa using h), h, zero_smul]
      · rw [if_pos h])
  · intro s h; rw [h, zero_smul]
  · unfold consumosBarrio
    rw [consStep_fold g t qe g.srcs 0 (fun s _ => hw s), zero_add]

/-- C1 witness: the executors on the concrete one-source geometry `g2`. -/
theorem c1_witness :
    (∀ s, (0 : ℚ) ≤ g2.interArea s "a") ∧ (∀ s, (0 : ℚ) ≤ g2.srcArea s) ∧
    (paso0 g2 q1 "a" = (g2.srcs.map (fun s => matrizOverlap g2 s "a" • q1 s)).sum ∧
     (∀ s, matrizOverlap g2 s "a" = 0 → matrizOverlap g2 s "a" • q1 s = 0) ∧
     consumosBarrio g2 (fun s => some ((fun _ => (5 : ℚ)) s)) "a"
       = some ((g2.srcs.map (fun s => matrizOverlap g2 s "a" * (fun _ => (5 : ℚ)) s)).sum)) :=
  ⟨fun s => by norm_num [g2], fun s => by norm_num [g2],
    c1_weighted_sum g2 q1 (fun _ => (5 : ℚ)) "a"
      (fun s => by norm_num [g2]) (fun s => by norm_num [g2])⟩

/-- C2.  Pass 1 of the coverage corrector: a target zone that intersects at
least one source zone and whose covered area is strictly below its own area
has its accumulated quantities multiplied by `area(T) / coveredArea(T)`
(stated on the positive-covered-area region where the float division is
finite); a target zone whose covered area is at least its own area is left
unchanged by pass 1. -/
theorem c2_under_coverage (g : Geo) (q : ℕ → Cols) (t : String) :
    (intersTgt g t = true → 0 < coveredArea g t →
      coveredArea g t < g.tgtArea t →
      paso1 g (paso0 g q) t = (g.tgtArea t / coveredArea g t) • paso0 g q t) ∧
    (g.tgtArea t ≤ coveredArea g t → paso1 g (paso0 g q) t = paso0 g q t) := by
  constructor
  · intro h1 _ h3
    unfold paso1
    rw [if_pos ⟨h1, h3⟩]
  · intro h
    unfold paso1
    rw [if_neg (by intro hc; exact absurd hc.2 (not_lt.mpr h))]

/-- C2 witness: on `g2`, target `"a"` has area 3 and covered area 1, so pass 1
scales its accumulated pair by 3. -/
theorem c2_witness :
    paso1 g2 (paso0 g2 q1) "a"
      = (g2.tgtArea "a" / coveredArea g2 "a") • paso0 g2 q1 "a" :=
  (c2_under_coverage g2 q1 "a").1 (by norm_num [intersTgt, g2])
    (by norm_num [coveredArea, g2]) (by norm_num [coveredArea, g2])

/-- C6.  For a source zone with positive area, non-negative intersection
areas bounded by the source area, and (pairwise non-overlapping targets)
total intersection area bounded by the source area, every original matrix
entry lies in [0, 1], the row sum lies in [0, 1] (exact arithmetic: ε = 0),
the row sum reaches 1 only when the covered area equals the source zone's
area (full coverage), and the `get_matriz_cp` entries coincide with the
`get_matriz_cuadrantes` entries. -/
theorem c6_row_sum_bound (g : Geo) (s : ℕ)
    (hpos : 0 < g.srcArea s)
    (hA : ∀ t, 0 ≤ g.interArea s t)
    (hup : ∀ t, g.interArea s t ≤ g.srcArea s)
    (hdisj : totalOvl g s ≤ g.srcArea s) :
    (∀ t, 0 ≤ matrizOverlap g s t ∧ matrizOverlap g s t ≤ 1) ∧
    0 ≤ rowSum g s ∧ rowSum g s ≤ 1 ∧
    (rowSum g s = 1 → totalOvl g s = g.srcArea s) ∧
    (∀ t, matrizCP g s t = some (matrizOverlap g s t)) := by
  have hov : 0 ≤ totalOvl g s := by
    unfold totalOvl
    apply List.sum_nonneg
    intro x hx
    rcases List.mem_map.mp hx with ⟨t, _, rfl⟩
    exact hA t
  refine ⟨?_, ?_, ?_, ?_, ?_⟩
  · intro t
    unfold matrizOverlap
    cases h : g.inter s t with
    | false => simp
    | true =>
      constructor
      · simpa using div_nonneg (hA t) (le_of_lt hpos)
      · simpa using (div_le_one hpos).mpr (hup t)
  · rw [rowSum_eq_div]
    exact div_nonneg hov (le_of_lt hpos)
  · rw [rowSum_eq_div]
    exact (div_le_one hpos).mpr hdisj
  · intro h
    rw [rowSum_eq_div] at h
    have := (div_eq_one_iff_eq (ne_of_gt hpos)).mp h
    exact this
  · intro t
    unfold matrizCP npDiv matrizOverlap
    cases h : g.inter s t with
    | false => simp
    | true => simp [ne_of_gt hpos]

/-- C6 witness: the bounds on the concrete one-source geometry `g2`. -/
theorem c6_witness :
    (0 : ℚ) < g2.srcArea 0 ∧ totalOvl g2 0 ≤ g2.srcArea 0 ∧
    ((∀ t, 0 ≤ matrizOverlap g2 0 t ∧ matrizOverlap g2 0 t ≤ 1) ∧
     0 ≤ rowSum g2 0 ∧ rowSum g2 0 ≤ 1 ∧
     (rowSum g2 0 = 1 → totalOvl g2 0 = g2.srcArea 0) ∧
     (∀ t, matrizCP g2 0 t = some (matrizOverlap g2 0 t))) :=
  ⟨by norm_num [g2], by norm_num [totalOvl, ovlTgts, g2],
    c6_row_sum_bound g2 0 (by norm_num [g2]) (fun t => by norm_num [g2])
      (fun t => by norm_num [g2]) (by norm_num [totalOvl, ovlTgts, g2])⟩

/-- C7 counterexample: `get_matriz_cp` has no zero-area special case.  On the
zero-area source polygon of `g3`, which intersects target `"a"`, the weight
division `0.0 / 0.0` yields a non-finite value (`none`), not the weight 0
that the claim asserts. -/
theorem c7_counterexample :
    matrizCP g3 0 "a" = none ∧ ¬ matrizCP g3 0 "a" = some 0 := by
  have h : matrizCP g3 0 "a" = none := by norm_num [matrizCP, npDiv, g3]
  refine ⟨h, ?_⟩
  rw [h]
  exact fun hc => Option.noConfusion hc

/-- C7 amended: for a zero-area source polygon the builder performs the
division unguarded, so every intersecting target receives a non-finite (NaN)
entry rather than 0, and no warning is recorded (there is no warning
mechanism in `get_matriz_cp`); targets that do not intersect keep the
initial 0. -/
theorem c7_amended (g : Geo) (s : ℕ) (h0 : g.srcArea s = 0) (t : String) :
    (g.inter s t = true → matrizCP g s t = none) ∧
    (g.inter s t = false → matrizCP g s t = some 0) := by
  constructor
  · intro h
    unfold matrizCP npDiv
    rw [h0]
    simp [h]
  · intro h
    unfold matrizCP
    simp [h]

/-- C7 witness: the amended statement applied to the zero-area source of
`g3`. -/
theorem c7_witness :
    g3.srcArea 0 = 0 ∧
    ((g3.inter 0 "a" = true → matrizCP g3 0 "a" = none) ∧
     (g3.inter 0 "a" = false → matrizCP g3 0 "a" = some 0)) :=
  ⟨rfl, c7_amended g3 0 rfl "a"⟩

/-- C4 counterexample: the claim's gate is wrong.  On `g0` the source zone
has original row sum 1/2 < 1 and a single intersecting target `"a"`, so the
claim requires the full leftover quantity `(1/2) • (0, 1)` to be added to
`"a"`; but because the zone's CO2 column is zero, pass 3 skips it entirely
and leaves the accumulator unchanged. -/
theorem c4_counterexample :
    rowSum g0 0 < 1 ∧ ovlTgts g0 0 = ["a"] ∧ q0 0 = ((0 : ℚ), (1 : ℚ)) ∧
    paso3 g0 q0 (fun _ => (0 : Cols)) = some (fun _ => (0 : Cols)) := by
  refine ⟨by norm_num [rowSum, matrizOverlap, g0], by decide, rfl, ?_⟩
  show List.foldl (paso3F g0 q0) (some (fun _ => (0 : Cols))) [0] = _
  rw [List.foldl_cons, paso3F_some,
    if_pos (show (q0 0).1 = 0 ∨ iscloseOne (rowSum g0 0) = true from Or.inl rfl),
    List.foldl_nil]

/-- C4 amended: pass 3 redistributes the leftover of a source zone only when
its CO2 column is non-zero and its original row sum is not within the
`isclose` tolerance of 1; for such a zone the leftover is assigned exactly as
the claim describes — entirely to the nearest target zone when no target
intersects (the row sum is then 0, so the full quantity is the leftover),
fully to a single intersecting target (the factor `1 - weight` equals
`1 - rowSum`), and in proportion to the intersection areas over several
intersecting targets (summing to the full leftover when the total overlap
area is non-zero). -/
theorem c4_amended (g : Geo) (q : ℕ → Cols) (acc : String → Cols) (s : ℕ)
    (hnd : g.tgts.Nodup) (hne : g.tgts ≠ []) (hs : s ∈ g.srcs)
    (hrow : rowSum g s < 1)
    (hq : (q s).1 ≠ 0) (hcl : iscloseOne (rowSum g s) = false) :
    paso3 g q acc
      = some (fun u => acc u + (g.srcs.map (fun s2 => delta g q s2 u)).sum) ∧
    (ovlTgts g s = [] →
      rowSum g s = 0 ∧
      ∃ n, nearestTgtAll g s = some n ∧ n ∈ g.tgts ∧ delta g q s n = q s ∧
        ∀ u, u ≠ n → delta g q s u = 0) ∧
    (∀ t1, ovlTgts g s = [t1] →
      delta g q s t1 = (1 - rowSum g s) • q s ∧
      ∀ u, u ≠ t1 → delta g q s u = 0) ∧
    (∀ t1 t2 rest, ovlTgts g s = t1 :: t2 :: rest →
      (∀ u ∈ ovlTgts g s,
        delta g q s u
          = ((g.interArea s u / totalOvl g s) * (1 - rowSum g s)) • q s) ∧
      (∀ u, u ∉ ovlTgts g s → delta g q s u = 0) ∧
      (totalOvl g s ≠ 0 →
        ((ovlTgts g s).map (fun u => delta g q s u)).sum
          = (1 - rowSum g s) • q s)) := by
  have hgate : ¬((q s).1 = 0 ∨ iscloseOne (rowSum g s) = true) := by
    intro hc
    rcases hc with hc | hc
    · exact hq hc
    · rw [hcl] at hc; exact Bool.noConfusion hc
  refine ⟨paso3_eq g q hnd hne acc, ?_, ?_, ?_⟩
  · intro hovl
    obtain ⟨n, hn, hnmem⟩ := argminL_isSome (fun t => g.distST s t) g.tgts hne
    have hn2 : nearestTgtAll g s = some n := hn
    refine ⟨rowSum_zero_of_no_ovl g s hovl, n, hn2, hnmem, ?_, ?_⟩
    · rw [delta_eq_empty g q s hgate hovl n, hn2, if_pos rfl]
    · intro u hu
      rw [delta_eq_empty g q s hgate hovl u, hn2,
        if_neg (fun hc => hu (Option.some.inj hc).symm)]
  · intro t1 hovl
    constructor
    · rw [delta_eq_single g q s t1 hgate hovl t1, if_pos rfl,
        rowSum_of_single_ovl g s t1 hnd hovl]
    · intro u hu
      rw [delta_eq_single g q s t1 hgate hovl u, if_neg hu]
  · intro t1 t2 rest hovl
    refine ⟨?_, ?_, ?_⟩
    · intro u hu
      rw [delta_eq_multi g q s t1 t2 rest hgate hovl u, if_pos hu]
    · intro u hu
      rw [delta_eq_multi g q s t1 t2 rest hgate hovl u, if_neg hu]
    · intro hne0
      exact delta_multi_total g q s hgate t1 t2 rest hovl hne0

/-- C4 witness: the amended statement applied to `g4` (row sum 1/2, single
intersecting target), extracting the single-target case. -/
theorem c4_witness :
    rowSum g4 0 < 1 ∧ (q1 0).1 ≠ 0 ∧ iscloseOne (rowSum g4 0) = false ∧
    (∀ t1, ovlTgts g4 0 = [t1] →
      delta g4 q1 0 t1 = (1 - rowSum g4 0) • q1 0 ∧
      ∀ u, u ≠ t1 → delta g4 q1 0 u = 0) := by
  have hrs : rowSum g4 0 = 1/2 := by
    norm_num [rowSum, matrizOverlap, g4,
      show (("b" : String) = "a") ↔ False from iff_false_intro (by decide)]
  have hrow : rowSum g4 0 < 1 := by rw [hrs]; norm_num
  have hcl : iscloseOne (rowSum g4 0) = false := by
    rw [hrs]; exact iscloseOne_half
  have hq : (q1 0).1 ≠ 0 := by norm_num [q1]
  exact ⟨hrow, hq, hcl,
    (c4_amended g4 q1 (fun _ => (0 : Cols)) 0 (by decide) (by decide)
      (by decide) hrow hq hcl).2.2.1⟩

/-- C5 counterexample: conservation fails through the pass-3 gate.  On `g0`
residual is present (row sum 1/2 < 1), yet the source's CO2 column is zero so
pass 3 skips it: the pipeline total `(0, 1/2)` differs from the input total
`(0, 1)` in the FE column. -/
theorem c5_counterexample :
    rowSum g0 0 < 1 ∧
    (cargarDatos g0 q0).map (fun f => (g0.tgts.map f).sum)
      = some ((0 : ℚ), (1 : ℚ)/2) ∧
    (g0.srcs.map (fun s => q0 s)).sum = ((0 : ℚ), (1 : ℚ)) ∧
    ((0 : ℚ), (1 : ℚ)/2) ≠ ((0 : ℚ), (1 : ℚ)) := by
  have hacc : paso1 g0 (paso0 g0 q0) "a" = ((0 : ℚ), (1 : ℚ)/2) := by
    norm_num [paso1, paso0, matrizOverlap, intersTgt, coveredArea, g0, q0,
      Bool.and_eq_true, decide_eq_true_eq]
  have hi : intersTgt g0 "a" = true := by decide
  have h2 : paso2 g0 (paso1 g0 (paso0 g0 q0)) = some (paso1 g0 (paso0 g0 q0)) := by
    apply paso2_noop
    intro t ht hc
    have he : t = "a" := by simpa [g0] using ht
    rw [he, hi] at hc
    exact Bool.noConfusion hc.2
  have h3 : paso3 g0 q0 (paso1 g0 (paso0 g0 q0))
      = some (paso1 g0 (paso0 g0 q0)) := by
    show List.foldl (paso3F g0 q0) _ [0] = _
    rw [List.foldl_cons, paso3F_some,
      if_pos (show (q0 0).1 = 0 ∨ iscloseOne (rowSum g0 0) = true from Or.inl rfl),
      List.foldl_nil]
  have hcd : cargarDatos g0 q0 = some (paso1 g0 (paso0 g0 q0)) := by
    unfold cargarDatos
    rw [h2]
    exact h3
  refine ⟨by norm_num [rowSum, matrizOverlap, g0, Bool.and_eq_true,
    decide_eq_true_eq], ?_, ?_, ?_⟩
  · rw [hcd]
    show some (paso1 g0 (paso0 g0 q0) "a" + 0) = some ((0 : ℚ), (1 : ℚ)/2)
    rw [hacc, add_zero]
  · show q0 0 + 0 = ((0 : ℚ), (1 : ℚ))
    rw [add_zero]
    rfl
  · intro hc
    rw [Prod.mk.injEq] at hc
    exact absurd hc.2 (by norm_num)

/-- C5 amended: the pipeline total over the target zones equals the input
total over the source zones provided the other passes are inactive and every
residual source passes the pass-3 gate: no listed target zone is
under-covered (pass 1 is the identity), every listed target zone is `'17.5'`
or intersects some source (pass 2 is the identity), and every source zone
either has row sum exactly 1 or has non-zero CO2, row sum outside the
`isclose` tolerance of 1, and non-zero total overlap area when it intersects
several targets. -/
theorem c5_amended (g : Geo) (q : ℕ → Cols)
    (hnd : g.tgts.Nodup) (hne : g.tgts ≠ [])
    (hp1 : ∀ t ∈ g.tgts, intersTgt g t = true → g.tgtArea t ≤ coveredArea g t)
    (hp2 : ∀ t ∈ g.tgts, t = "17.5" ∨ intersTgt g t = true)
    (hres : ∃ s ∈ g.srcs, rowSum g s < 1)
    (hsrc : ∀ s ∈ g.srcs, rowSum g s = 1 ∨
      ((q s).1 ≠ 0 ∧ iscloseOne (rowSum g s) = false ∧
       (∀ t1 t2 rest, ovlTgts g s = t1 :: t2 :: rest → totalOvl g s ≠ 0))) :
    ∃ f, cargarDatos g q = some f ∧
      (g.tgts.map f).sum = (g.srcs.map (fun s => q s)).sum := by
  have hng : ∀ t ∈ g.tgts, ¬(t ≠ "17.5" ∧ intersTgt g t = false) := by
    intro t ht hc
    rcases hp2 t ht with h | h
    · exact hc.1 h
    · rw [h] at hc; exact Bool.noConfusion hc.2
  have h2 : paso2 g (paso1 g (paso0 g q)) = some (paso1 g (paso0 g q)) :=
    paso2_noop g _ hng
  have h3 := paso3_eq g q hnd hne (paso1 g (paso0 g q))
  refine ⟨fun u => paso1 g (paso0 g q) u
    + (g.srcs.map (fun s => delta g q s u)).sum, ?_, ?_⟩
  · unfold cargarDatos
    rw [h2]
    exact h3
  · show (g.tgts.map (fun u => paso1 g (paso0 g q) u
      + (g.srcs.map (fun s => delta g q s u)).sum)).sum
      = (g.srcs.map (fun s => q s)).sum
    rw [sum_map_add (fun u => paso1 g (paso0 g q) u)
      (fun u => (g.srcs.map (fun s => delta g q s u)).sum) g.tgts]
    rw [sum_map_congr (f := fun u => paso1 g (paso0 g q) u)
      (g := fun u => paso0 g q u)
      (fun t ht => paso1_noop_at g (paso0 g q) t (hp1 t ht))]
    rw [paso0_total g q]
    rw [sum_map_swap (fun u s => delta g q s u) g.srcs g.tgts]
    rw [← sum_map_add (fun s => rowSum g s • q s)
      (fun s => (g.tgts.map (fun u => delta g q s u)).sum) g.srcs]
    apply sum_map_congr
    intro s hs
    show rowSum g s • q s + (g.tgts.map (fun u => delta g q s u)).sum = q s
    rw [add_comm]
    exact delta_total g q s hnd hne (hsrc s hs)

/-- C5 witness: exact conservation on `g5`, whose single source has row sum
1/2 split over two fully-covered targets. -/
theorem c5_witness :
    (∃ s ∈ g5.srcs, rowSum g5 s < 1) ∧
    (∃ f, cargarDatos g5 q1 = some f ∧
      (g5.tgts.map f).sum = (g5.srcs.map (fun s => q1 s)).sum) := by
  have hrs : rowSum g5 0 = 1/2 := by
    norm_num [rowSum, matrizOverlap, g5]
  have hres : ∃ s ∈ g5.srcs, rowSum g5 s < 1 :=
    ⟨0, by decide, by rw [hrs]; norm_num⟩
  refine ⟨hres, c5_amended g5 q1 (by decide) (by decide) ?_ ?_ hres ?_⟩
  · intro t _ _
    norm_num [coveredArea, g5]
  · intro t _
    exact Or.inr rfl
  · intro s hs
    have he : s = 0 := by simpa [g5] using hs
    subst he
    refine Or.inr ⟨by norm_num [q1], by rw [hrs]; exact iscloseOne_half, ?_⟩
    intro t1 t2 rest _
    norm_num [totalOvl, ovlTgts, g5]

/-- C10.  The gates of passes 2 and 3 inspect only the CO2 column: a source
zone whose CO2 value is exactly zero contributes nothing in pass 3 for
either column (its FE leftover is dropped even with row sum below 1 and
positive FE), pass 3 is exactly the sum of these gated contributions, and a
target zone with zero CO2 but positive FE is not an eligible pass-2
donor. -/
theorem c10_gate_co2_only (g : Geo) (q : ℕ → Cols)
    (acc acc1 : String → Cols) (s : ℕ) (t2 : String)
    (hnd : g.tgts.Nodup) (hne : g.tgts ≠ [])
    (hco2 : (q s).1 = 0) (hrow : rowSum g s < 1) (hfe : 0 < (q s).2)
    (hd1 : (acc1 t2).1 = 0) (hd2 : 0 < (acc1 t2).2) :
    (∀ u, delta g q s u = 0) ∧
    paso3 g q acc
      = some (fun u => acc u + (g.srcs.map (fun s2 => delta g q s2 u)).sum) ∧
    t2 ∉ donors g acc1 := by
  refine ⟨delta_eq_of_gate g q s (Or.inl hco2), paso3_eq g q hnd hne acc, ?_⟩
  intro hmem
  rcases List.mem_filter.mp hmem with ⟨_, hdec⟩
  rw [decide_eq_true_eq, hd1] at hdec
  exact lt_irrefl 0 hdec

/-- C10 witness: on `g0`, the source has zero CO2, positive FE and row sum
1/2, yet contributes nothing; a zone valued `(0, 5)` is not a donor. -/
theorem c10_witness :
    (q0 0).1 = 0 ∧ rowSum g0 0 < 1 ∧ 0 < (q0 0).2 ∧
    ((∀ u, delta g0 q0 0 u = 0) ∧
     paso3 g0 q0 (fun _ => (0 : Cols))
       = some (fun u => (0 : Cols)
           + (g0.srcs.map (fun s2 => delta g0 q0 s2 u)).sum) ∧
     "a" ∉ donors g0 (fun _ => ((0 : ℚ), (5 : ℚ)))) := by
  have hrow : rowSum g0 0 < 1 := by
    norm_num [rowSum, matrizOverlap, g0, Bool.and_eq_true, decide_eq_true_eq]
  exact ⟨rfl, hrow, by norm_num [q0],
    c10_gate_co2_only g0 q0 (fun _ => (0 : Cols)) (fun _ => ((0 : ℚ), (5 : ℚ)))
      0 "a" (by decide) (by decide) rfl hrow (by norm_num [q0]) rfl
      (by norm_num)⟩

/-- C8 counterexample: the energy executor does not tolerate a source id
that is present in the geometry (with positive weight) but absent from the
quantity table: on `g2` with the empty table it fails (`KeyError`, modelled
`none`) instead of contributing zero. -/
theorem c8_counterexample :
    (0 : ℕ) ∈ g2.srcs ∧ 0 < matrizOverlap g2 0 "a" ∧
    consumosBarrio g2 tabN "a" = none := by
  refine ⟨by norm_num [g2], by norm_num [matrizOverlap, g2], ?_⟩
  have h : (0 : ℕ) ∈ g2.srcs.filter (fun s => decide (0 < matrizOverlap g2 s "a")) := by
    apply List.mem_filter.mpr
    refine ⟨by norm_num [g2], ?_⟩
    rw [decide_eq_true_eq]
    norm_num [matrizOverlap, g2]
  unfold consumosBarrio
  exact consStep_absorb g2 "a" tabN 0 _ h rfl 0

/-- C8 amended: a source id present in the quantity table but absent from
the geometry store is never consulted (the executor's result only depends on
the table's values at the geometric source ids), but a geometric source id
with positive weight that is missing from the table makes the executor fail
(`consumos_cp.loc[cp]` raises `KeyError`) instead of contributing zero. -/
theorem c8_amended (g : Geo) (t : String) (tab tab' : ℕ → Option ℚ)
    (hagree : ∀ s ∈ g.srcs, tab s = tab' s) :
    consumosBarrio g tab t = consumosBarrio g tab' t ∧
    (∀ s, s ∈ g.srcs → 0 < matrizOverlap g s t → tab s = none →
      consumosBarrio g tab t = none) := by
  constructor
  · unfold consumosBarrio
    exact consStep_congr g t tab tab' _
      (fun s hs => hagree s (List.mem_of_mem_filter hs)) _
  · intro s hs hw hnone
    unfold consumosBarrio
    have h : s ∈ g.srcs.filter (fun u => decide (0 < matrizOverlap g u t)) :=
      List.mem_filter.mpr ⟨hs, by rw [decide_eq_true_eq]; exact hw⟩
    exact consStep_absorb g t tab s _ h hnone 0

/-- C3.  Pass 2 of the coverage corrector: on the pipeline state after
pass 1, every target zone other than the hard-excluded `'17.5'` that
intersects no source zone receives exactly half the post-pass-1 (apportioned)
value of the nearest target zone with non-zero data (positive CO2), the
nearest-donor search being an `idxmin` over the distances from the zone's
centroid restricted to the donor set. -/
theorem c3_zero_coverage_fallback (g : Geo) (q : ℕ → Cols) (t : String)
    (hnd : g.tgts.Nodup) (ht : t ∈ g.tgts) (h17 : t ≠ "17.5")
    (hni : intersTgt g t = false)
    (hdon : donors g (paso1 g (paso0 g q)) ≠ []) :
    ∃ acc2 n, paso2 g (paso1 g (paso0 g q)) = some acc2 ∧
      nearestDonor g (paso1 g (paso0 g q)) t = some n ∧
      n ∈ donors g (paso1 g (paso0 g q)) ∧
      acc2 t = ((1 : ℚ)/2) • (paso1 g (paso0 g q)) n := by
  obtain ⟨acc2, hfold, _, _, hgate, _⟩ :=
    paso2_go g (paso1 g (paso0 g q)) hdon (donors_intersect g q)
      g.tgts hnd (paso1 g (paso0 g q)) (fun d _ => rfl)
  obtain ⟨n, hn, hnmem, hval⟩ := hgate t ht ⟨h17, hni⟩
  exact ⟨acc2, n, hfold, hn, hnmem, hval⟩

/-- C3 witness: on `g1` with quantities `(2, 3)`, target `"b"` intersects
nothing and receives half of donor `"a"`'s apportioned value. -/
theorem c3_witness :
    donors g1 (paso1 g1 (paso0 g1 q1)) = ["a"] ∧
    (∃ acc2 n, paso2 g1 (paso1 g1 (paso0 g1 q1)) = some acc2 ∧
      nearestDonor g1 (paso1 g1 (paso0 g1 q1)) "b" = some n ∧
      n ∈ donors g1 (paso1 g1 (paso0 g1 q1)) ∧
      acc2 "b" = ((1 : ℚ)/2) • (paso1 g1 (paso0 g1 q1)) n) := by
  have ha : paso1 g1 (paso0 g1 q1) "a" = ((2 : ℚ), (3 : ℚ)) := by
    norm_num [paso1, paso0, matrizOverlap, intersTgt, coveredArea, g1, q1]
  have hb : paso1 g1 (paso0 g1 q1) "b" = ((0 : ℚ), (0 : ℚ)) := by
    norm_num [paso1, paso0, matrizOverlap, intersTgt, coveredArea, g1, q1,
      show (("b" : String) = "a") ↔ False from iff_false_intro (by decide)]
  have hdon : donors g1 (paso1 g1 (paso0 g1 q1)) = ["a"] := by
    unfold donors
    show List.filter _ (["a", "b"]) = ["a"]
    rw [List.filter_cons, List.filter_cons]
    norm_num [ha, hb]
  refine ⟨hdon, c3_zero_coverage_fallback g1 q1 "b" (by decide) (by decide)
    (by decide) (by decide) (by rw [hdon]; exact List.cons_ne_nil "a" [])⟩

/-- C9.  If, when pass 2's fallback search runs (some target zone other than
`'17.5'` intersects no source zone), no target zone at all has non-zero data
(the donor set is empty), then the run aborts: the whole `cargar_datos`
pipeline raises (`idxmin` on an empty series) instead of returning an
all-zero result. -/
theorem c9_no_donor_error (g : Geo) (q : ℕ → Cols)
    (htrig : ∃ t ∈ g.tgts, t ≠ "17.5" ∧ intersTgt g t = false)
    (hdon : donors g (paso1 g (paso0 g q)) = []) :
    cargarDatos g q = none := by
  unfold cargarDatos
  have h2 : paso2 g (paso1 g (paso0 g q)) = none := by
    unfold paso2
    exact paso2_fail g (paso1 g (paso0 g q)) hdon g.tgts htrig _
  rw [h2]
  rfl

/-- C9 witness: on `g1` with the all-zero table, no target zone has data,
target `"b"` triggers the fallback, and the run fails. -/
theorem c9_witness :
    donors g1 (paso1 g1 (paso0 g1 qz)) = [] ∧ cargarDatos g1 qz = none := by
  have hz : ∀ t, paso1 g1 (paso0 g1 qz) t = 0 := by
    intro t
    have h0 : paso0 g1 qz t = 0 := by
      unfold paso0
      apply sum_map_zero
      intro s _
      split <;> simp [qz]
    unfold paso1
    rw [h0]
    split <;> simp
  have hdon : donors g1 (paso1 g1 (paso0 g1 qz)) = [] := by
    unfold donors
    show List.filter _ (["a", "b"]) = []
    rw [List.filter_cons, List.filter_cons]
    norm_num [hz]
  exact ⟨hdon, c9_no_donor_error g1 qz
    ⟨"b", by decide, by decide, by decide⟩ hdon⟩

/-- C8 witness: the amended statement on `g2`, with two tables that agree on
the geometric source ids but differ elsewhere. -/
theorem c8_witness :
    (∀ s ∈ g2.srcs, tabW s = tabW2 s) ∧
    (consumosBarrio g2 tabW "a" = consumosBarrio g2 tabW2 "a" ∧
     (∀ s, s ∈ g2.srcs → 0 < matrizOverlap g2 s "a" → tabW s = none →
       consumosBarrio g2 tabW "a" = none)) :=
  ⟨by intro s hs; simp [g2] at hs; simp [hs, tabW, tabW2],
    c8_amended g2 "a" tabW tabW2
      (by intro s hs; simp [g2] at hs; simp [hs, tabW, tabW2])⟩

end Desvab
